import Mathlib

/-!
# Validator BLS public keys and secrets initialisation

A shallow embedding of `consensus/polybft/signer/public.go` (package `bls`) and of
`command/polybftsecrets/params.go`, followed by the properties proved about them.

Conventions of the embedding.

* A Go `[]byte` is a list of bytes; its capacity is taken equal to its length.
* A Go `*big.Int` that is not nil is an `Int`.
* A Go function returning `(v, err)` returns a record or pair whose error component is an
  `Option`: `none` is the nil error.
* A Go run-time panic is the `error` side of `Except Panic`.
* Code outside the two files (the curve library, `encoding/json`, the secrets manager and
  the key helpers) is a parameter of the embedding.
-/

set_option maxRecDepth 16000

/-- A Go `byte`. -/
abbrev Byte := Fin 256

/-- A Go `[]byte`. -/
abbrev GoBytes := List Byte

/-- Run-time panics of the Go code. -/
inductive Panic where
  /-- A nil pointer is dereferenced. -/
  | nilDereference
  /-- A slice expression reaches beyond the capacity of the slice. -/
  | sliceBounds
  /-- The length given to `make` is negative. -/
  | makeslice
  deriving DecidableEq, Repr

/-- Equality of the results of a Go call that may raise a run-time error is decidable. -/
instance instDecidableEqExcept {ε α : Type} [DecidableEq ε] [DecidableEq α] :
    DecidableEq (Except ε α)
  | .ok a, .ok b =>
    if h : a = b then isTrue (by rw [h]) else isFalse (by intro h2; cases h2; exact h rfl)
  | .error a, .error b =>
    if h : a = b then isTrue (by rw [h]) else isFalse (by intro h2; cases h2; exact h rfl)
  | .ok _, .error _ => isFalse (by intro h; cases h)
  | .error _, .ok _ => isFalse (by intro h; cases h)

/-- The Go slice expression `s[i:j]`; it panics when `j` exceeds the capacity. -/
def goSlice (s : GoBytes) (i j : Nat) : Except Panic GoBytes :=
  if s.length < j then .error .sliceBounds else .ok ((s.drop i).take (j - i))

namespace big

/-- The unsigned big-endian value of a byte slice. -/
def beValue (buf : GoBytes) : Nat :=
  buf.foldl (fun acc b => acc * 256 + b.val) 0

/-- The integer `new(big.Int).SetBytes(buf)`: `buf` read as a big-endian unsigned integer. -/
def SetBytes (buf : GoBytes) : Int :=
  Int.ofNat (beValue buf)

/-- Big-endian digits of `n` in base 256 pushed in front of `acc`; `fuel` bounds the
number of digits and `fuel = n` is always enough. -/
def bytesAux : Nat → Nat → GoBytes → GoBytes
  | 0, _, acc => acc
  | fuel + 1, n, acc =>
    if n = 0 then acc
    else bytesAux fuel (n / 256) (⟨n % 256, Nat.mod_lt n (by decide)⟩ :: acc)

/-- The minimal big-endian encoding of a natural number (empty for zero). -/
def natBytes (n : Nat) : GoBytes :=
  bytesAux n n []

/-- The slice `x.Bytes()`: the absolute value of `x`, big-endian, without leading zeros. -/
def Bytes (x : Int) : GoBytes :=
  natBytes x.natAbs

end big

namespace bls

/-- Error values of the package and of the libraries it calls. -/
inductive Error where
  /-- The value `errors.New("cannot unmarshal public key from empty slice")`. -/
  | emptySlice
  /-- The error of `leftPadTo32Bytes`. -/
  | padding
  /-- An error of `bn256.G2.Unmarshal`. -/
  | curve (code : Nat)
  /-- An error of `json.Unmarshal`. -/
  | json (code : Nat)
  deriving DecidableEq, Repr

/-- Modelled from the spec: `leftPadTo32Bytes` is not part of the two files. Following §4.1,
the input is left-padded with zero bytes to exactly 32 bytes, and an input longer than
32 bytes is an error. -/
def leftPadTo32Bytes (data : GoBytes) : Except Error GoBytes :=
  if 32 < data.length then .error .padding
  else .ok (List.replicate (32 - data.length) (0 : Byte) ++ data)

/-- The part of the curve library `bn256` that the package uses on G2 points besides the
group addition, which is the addition of the commutative group `G`. The library is not part
of the repository and is a parameter. -/
structure Curve (G : Type) where
  /-- The encoding `g.Marshal()` of a point. -/
  Marshal : G → GoBytes
  /-- The call `p.Unmarshal(raw)` on `p := new(bn256.G2)`: the point held by `p` after the
  call, and the error of the call (`none` is the nil error). -/
  Unmarshal : GoBytes → G × Option Nat

/-- Modelled from the spec: the package variable `zeroG2` is declared outside the two files;
by §2 and §4.2 it is the identity element of the group. -/
def zeroG2 {G : Type} [AddCommGroup G] : G := 0

/-- The struct `PublicKey`; the field `p` is a pointer and `none` is the nil pointer. -/
structure PublicKey (G : Type) where
  p : Option G
  deriving DecidableEq, Repr

/-- The method `aggregate`: a receiver without a point counts as `zeroG2`; the library
dereferences the second operand of `Add`. -/
def PublicKey.aggregate {G : Type} [AddCommGroup G] (p onemore : PublicKey G) :
    Except Panic (PublicKey G) :=
  let g2 : G := match p.p with
    | none => zeroG2
    | some g => g
  match onemore.p with
  | none => .error .nilDereference
  | some q => .ok { p := some (g2 + q) }

/-- The method `Marshal`: the library dereferences its receiver. -/
def PublicKey.Marshal {G : Type} (c : Curve G) (p : PublicKey G) : Except Panic GoBytes :=
  match p.p with
  | none => .error .nilDereference
  | some g => .ok (c.Marshal g)

/-- The pair `(*PublicKey, error)` returned by the decoding functions, together with the
buffers that were handed to `bn256.G2.Unmarshal` on the way, in call order. -/
structure Decoded (G : Type) where
  key : Option (PublicKey G)
  err : Option Error
  calls : List GoBytes
  deriving DecidableEq, Repr

/-- The function `UnmarshalPublicKey`. -/
def UnmarshalPublicKey {G : Type} (c : Curve G) (raw : GoBytes) : Decoded G :=
  if raw.length = 0 then
    { key := none, err := some .emptySlice, calls := [] }
  else
    let r := c.Unmarshal raw
    { key := some { p := some r.1 }, err := r.2.map Error.curve, calls := [raw] }

/-- The method `UnmarshalJSON`; `jsonUnmarshal` is `json.Unmarshal(b, &d)` for `d []byte`.
The result is the receiver after the call and the returned error. The assignment
`p.p = pk.p` dereferences `pk` before the error is looked at. -/
def PublicKey.UnmarshalJSON {G : Type} (c : Curve G) (jsonUnmarshal : GoBytes → Except Nat GoBytes)
    (p : PublicKey G) (b : GoBytes) : Except Panic (PublicKey G × Option Error) :=
  match jsonUnmarshal b with
  | .error e => .ok (p, some (.json e))
  | .ok d =>
    let r := UnmarshalPublicKey c d
    match r.key with
    | none => .error .nilDereference
    | some pk => .ok ({ p := pk.p }, r.err)

/-- The array type `[4]*big.Int` with all four pointers non-nil; `bi` is the element at
index `i`. -/
structure BigInt4 where
  b0 : Int
  b1 : Int
  b2 : Int
  b3 : Int
  deriving DecidableEq, Repr

/-- The method `ToBigInt`. -/
def PublicKey.ToBigInt {G : Type} (c : Curve G) (p : PublicKey G) :
    Except Panic (BigInt4 × Option Error) := do
  let blsKey ← p.Marshal c
  let s0 ← goSlice blsKey 32 64
  let s1 ← goSlice blsKey 0 32
  let s2 ← goSlice blsKey 96 128
  let s3 ← goSlice blsKey 64 96
  pure ({ b0 := big.SetBytes s0, b1 := big.SetBytes s1,
          b2 := big.SetBytes s2, b3 := big.SetBytes s3 }, none)

/-- The function `UnmarshalPublicKeyFromBigInt`. -/
def UnmarshalPublicKeyFromBigInt {G : Type} (c : Curve G) (b : BigInt4) : Decoded G :=
  match leftPadTo32Bytes (big.Bytes b.b1) with
  | .error e => { key := none, err := some e, calls := [] }
  | .ok pt1 =>
    match leftPadTo32Bytes (big.Bytes b.b0) with
    | .error e => { key := none, err := some e, calls := [] }
    | .ok pt2 =>
      match leftPadTo32Bytes (big.Bytes b.b3) with
      | .error e => { key := none, err := some e, calls := [] }
      | .ok pt3 =>
        match leftPadTo32Bytes (big.Bytes b.b2) with
        | .error e => { key := none, err := some e, calls := [] }
        | .ok pt4 => UnmarshalPublicKey c ((([] ++ pt1) ++ pt2) ++ pt3 ++ pt4)

/-- The loop of `aggregatePublicKeys`; `res` is the running sum. -/
def aggregateLoop {G : Type} [AddCommGroup G] : List (PublicKey G) → G → Except Panic (PublicKey G)
  | [], res => .ok { p := some res }
  | k :: ks, res =>
    match k.p with
    | none => .error .nilDereference
    | some q => aggregateLoop ks (res + q)

/-- The function `aggregatePublicKeys`. -/
def aggregatePublicKeys {G : Type} [AddCommGroup G] (pubs : List (PublicKey G)) :
    Except Panic (PublicKey G) :=
  aggregateLoop pubs zeroG2

/-- The big-endian unsigned value of a byte string, most significant byte first. -/
def bigEndian : GoBytes → Nat
  | [] => 0
  | b :: bs => b.val * 256 ^ bs.length + bigEndian bs

/-- The bytes `i`, ..., `j - 1` of a byte string. -/
def bytesFromTo (s : GoBytes) (i j : Nat) : GoBytes :=
  (s.drop i).take (j - i)

/-- The 32-byte big-endian encoding of the absolute value of an integer below `2 ^ 256`. -/
def pad32 (x : Int) : GoBytes :=
  List.replicate (32 - (big.Bytes x).length) (0 : Byte) ++ big.Bytes x

/-- A valid public key: it holds a point whose encoding has 128 bytes and is decoded back
to the same point by the library. -/
def PublicKey.Valid {G : Type} (c : Curve G) (k : PublicKey G) : Prop :=
  match k.p with
  | none => False
  | some g => (c.Marshal g).length = 128 ∧ c.Unmarshal (c.Marshal g) = (g, none)

/-- The sum of the points of a list of keys, when every key holds a point. -/
def sumPoints {G : Type} [AddCommGroup G] : List (PublicKey G) → Except Panic G
  | [] => .ok 0
  | k :: ks =>
    match k.p with
    | none => .error .nilDereference
    | some q =>
      match sumPoints ks with
      | .error e => .error e
      | .ok s => .ok (q + s)

/-- A small stand-in for the curve library, over the integers: a point `g` with
`0 ≤ g < 256` is encoded as four 32-byte blocks holding `g`, `g + 1`, `g + 2`, `g + 3`
(modulo 256) in their last byte; the decoder wants at least 128 bytes. -/
def sampleCurve : Curve Int where
  Marshal g :=
    let blk (n : Nat) : GoBytes := List.replicate 31 (0 : Byte) ++ [⟨n % 256, Nat.mod_lt n (by decide)⟩]
    blk g.toNat ++ blk (g.toNat + 1) ++ blk (g.toNat + 2) ++ blk (g.toNat + 3)
  Unmarshal raw :=
    if raw.length < 128 then (0, some 1) else (Int.ofNat (raw.getD 31 0).val, none)

/-- A stand-in for `json.Unmarshal` into a `[]byte`: the documents `""` and `null` decode
to the empty byte string, as they do in Go; nothing else is accepted. -/
def sampleJSON (b : GoBytes) : Except Nat GoBytes :=
  if b = [34, 34] ∨ b = [110, 117, 108, 108] then .ok [] else .error 0

end bls

namespace polybftsecrets

/-- Modelled from the spec: the named well-known secret identifiers of §6
(`secrets.NetworkKey`, `secrets.ValidatorKey`, `secrets.ValidatorBLSKey`,
`secrets.ValidatorBLSSignature`), declared outside the two files. -/
inductive SecretName where
  | NetworkKey
  | ValidatorKey
  | ValidatorBLSKey
  | ValidatorBLSSignature
  deriving DecidableEq, Repr

/-- The string of a secret identifier, as it appears in the generated list. -/
def SecretName.str : SecretName → String
  | .NetworkKey => "network-key"
  | .ValidatorKey => "validator-key"
  | .ValidatorBLSKey => "validator-bls-key"
  | .ValidatorBLSSignature => "validator-bls-signature"

/-- Error values seen by the command. -/
inductive Err where
  | ErrInvalidNum
  | ErrInvalidParams
  /-- An error returned by a collaborator (secrets manager, wallet, helper). -/
  | external (code : Nat)
  /-- The error `fmt.Errorf` builds around `inner` with the verb `%w`. -/
  | wrapped (msg : String) (inner : Err)
  deriving DecidableEq, Repr

/-- The constant `maxInitNum`. -/
def maxInitNum : Int := 30

/-- The struct `initParams`. -/
structure initParams where
  dataPath : String
  configPath : String
  generatesAccount : Bool
  generatesNetwork : Bool
  printPrivateKey : Bool
  numberOfSecrets : Int
  insecureLocalStore : Bool
  output : Bool
  chainID : Int
  deriving DecidableEq, Repr

/-- The method `validateFlags`. -/
def initParams.validateFlags (ip : initParams) : Option Err :=
  if ip.numberOfSecrets < 1 ∨ ip.numberOfSecrets > maxInitNum then some .ErrInvalidNum
  else if ip.dataPath = "" ∧ ip.configPath = "" then some .ErrInvalidParams
  else none

/-- The collaborators of the command, which live outside the two files, as operations on a
world `σ` (the secret stores and the source of randomness). `M` is a secrets manager and
`A` an account. Reading operations do not change the world. -/
structure Deps (σ M A : Type) where
  /-- The call `GetSecretsManager(dataDir, configDir, insecureLocalStore)`. -/
  GetSecretsManager : String → String → Bool → σ → Except Err M × σ
  /-- The call `secretsManager.HasSecret(name)`. -/
  HasSecret : M → SecretName → σ → Bool
  /-- The call `secretsManager.GetSecret(name)`. -/
  GetSecret : M → SecretName → σ → Except Err GoBytes
  /-- The error of `helper.InitNetworkingPrivateKey(secretsManager)`. -/
  InitNetworkingPrivateKey : M → σ → Option Err × σ
  /-- The call `wallet.GenerateAccount()`. -/
  GenerateAccount : σ → A × σ
  /-- The call `a.Save(secretsManager)`. -/
  Save : A → M → σ → Option Err × σ
  /-- The call `wallet.NewAccountFromSecret(secretsManager)`. -/
  NewAccountFromSecret : M → σ → Except Err A
  /-- The error of `helper.InitValidatorBLSSignature(secretsManager, a, chainID)`. -/
  InitValidatorBLSSignature : M → A → Int → σ → Option Err × σ
  /-- The value `types.Address(account.Ecdsa.Address())`. -/
  Address : A → GoBytes
  /-- The value `account.Bls.PublicKey().Marshal()`. -/
  BlsPublicKeyMarshal : A → GoBytes
  /-- The call `account.Ecdsa.MarshallPrivateKey()`. -/
  MarshallPrivateKey : A → Except Err GoBytes
  /-- The call `account.Bls.Marshal()`. -/
  BlsMarshal : A → Except Err GoBytes
  /-- The call `helper.LoadNodeID(secretsManager)`. -/
  LoadNodeID : M → σ → Except Err String

/-- The struct `SecretsInitResult`, with the fields that `getResult` fills; a Go string
made from bytes is kept as bytes. -/
structure SecretsInitResult where
  Address : GoBytes
  BLSPubkey : String
  BLSSignature : GoBytes
  Generated : String
  PrivateKey : String
  BLSPrivateKey : String
  NodeID : String
  Insecure : Bool
  deriving DecidableEq, Repr

/-- The value `&SecretsInitResult{}`. -/
def SecretsInitResult.zero : SecretsInitResult :=
  { Address := [], BLSPubkey := "", BLSSignature := [], Generated := "", PrivateKey := "",
    BLSPrivateKey := "", NodeID := "", Insecure := false }

/-- One lower-case hexadecimal digit, for `n < 16`. -/
def hexDigit (n : Nat) : Char :=
  if n < 10 then Char.ofNat (48 + n) else Char.ofNat (87 + n)

/-- The function `hex.EncodeToString`. -/
def hexEncodeToString (b : GoBytes) : String :=
  String.mk (b.flatMap fun x => [hexDigit (x.val / 16), hexDigit (x.val % 16)])

/-- The result of `initKeys`: the generated list, the error, and the world afterwards. -/
structure InitKeysOut (σ : Type) where
  generated : List SecretName
  err : Option Err
  world : σ

/-- The end of `initKeys`: the block on `secrets.ValidatorBLSSignature`, for the account `a`. -/
def initSignature {σ M A : Type} (d : Deps σ M A) (ip : initParams) (m : M) (a : A)
    (generated : List SecretName) (w : σ) : InitKeysOut σ :=
  if !d.HasSecret m .ValidatorBLSSignature w then
    match d.InitValidatorBLSSignature m a ip.chainID w with
    | (some err, w1) =>
      { generated := generated,
        err := some (.wrapped "error initializing validator-bls-signature" err), world := w1 }
    | (none, w1) =>
      { generated := generated ++ [.ValidatorBLSSignature], err := none, world := w1 }
  else
    { generated := generated, err := none, world := w }

/-- The block `if ip.generatesAccount` of `initKeys` and what follows it. -/
def initAccount {σ M A : Type} (d : Deps σ M A) (ip : initParams) (m : M)
    (generated : List SecretName) (w : σ) : InitKeysOut σ :=
  if ip.generatesAccount then
    if !d.HasSecret m .ValidatorKey w && !d.HasSecret m .ValidatorBLSKey w then
      let g := d.GenerateAccount w
      match d.Save g.1 m g.2 with
      | (some err, w2) =>
        { generated := generated, err := some (.wrapped "error saving account" err), world := w2 }
      | (none, w2) =>
        initSignature d ip m g.1 (generated ++ [.ValidatorKey, .ValidatorBLSKey]) w2
    else
      match d.NewAccountFromSecret m w with
      | .error err =>
        { generated := generated, err := some (.wrapped "error loading account" err), world := w }
      | .ok a => initSignature d ip m a generated w
  else
    { generated := generated, err := none, world := w }

/-- The method `initKeys`. -/
def initKeys {σ M A : Type} (d : Deps σ M A) (ip : initParams) (m : M) (w : σ) :
    InitKeysOut σ :=
  if ip.generatesNetwork then
    if !d.HasSecret m .NetworkKey w then
      match d.InitNetworkingPrivateKey m w with
      | (some err, w1) =>
        { generated := [], err := some (.wrapped "error initializing network-key" err),
          world := w1 }
      | (none, w1) => initAccount d ip m ([] ++ [.NetworkKey]) w1
    else initAccount d ip m [] w
  else initAccount d ip m [] w

/-- The method `getResult`; on an error the returned result is nil. -/
def getResult {σ M A : Type} (d : Deps σ M A) (ip : initParams) (m : M)
    (generated : List SecretName) (w : σ) : Except Err SecretsInitResult := do
  let res := SecretsInitResult.zero
  let res ←
    if ip.generatesAccount then do
      let account ← d.NewAccountFromSecret m w
      let res := { res with
        Address := d.Address account,
        BLSPubkey := hexEncodeToString (d.BlsPublicKeyMarshal account) }
      let s ← d.GetSecret m .ValidatorBLSSignature w
      let res := { res with
        BLSSignature := s,
        Generated := String.intercalate ", " (generated.map SecretName.str) }
      if ip.printPrivateKey then do
        let pk ← d.MarshallPrivateKey account
        let res := { res with PrivateKey := hexEncodeToString pk }
        let blspk ← d.BlsMarshal account
        pure { res with BLSPrivateKey := hexEncodeToString blspk }
      else pure res
    else pure res
  let res ←
    if ip.generatesNetwork then do
      let id ← d.LoadNodeID m w
      pure { res with NodeID := id }
    else pure res
  pure { res with Insecure := ip.insecureLocalStore }

/-- What one round of the loop of `Execute` gives: the result or the error of the round,
and the world afterwards. -/
structure IterationOut (σ : Type) where
  res : Except Err SecretsInitResult
  world : σ

/-- The body of the loop of `Execute` for the index `i`. -/
def iteration {σ M A : Type} (d : Deps σ M A) (ip : initParams) (i : Nat) (w : σ) :
    IterationOut σ :=
  let dataDir := if ip.numberOfSecrets > 1 then ip.dataPath ++ toString (i + 1) else ip.dataPath
  let configDir :=
    if ip.configPath ≠ "" ∧ ip.numberOfSecrets > 1 then ip.configPath ++ toString (i + 1)
    else ip.configPath
  match d.GetSecretsManager dataDir configDir ip.insecureLocalStore w with
  | (.error err, w1) => { res := .error err, world := w1 }
  | (.ok secretManager, w1) =>
    if !ip.output then
      let r := initKeys d ip secretManager w1
      match r.err with
      | some err => { res := .error err, world := r.world }
      | none => { res := getResult d ip secretManager r.generated r.world, world := r.world }
    else
      { res := getResult d ip secretManager [] w1, world := w1 }

/-- What `Execute` returns and does: the slice `results` (a nil entry is `none`), the
error, and the world afterwards. -/
structure ExecuteOut (σ : Type) where
  results : List (Option SecretsInitResult)
  err : Option Err
  world : σ

/-- The loop of `Execute`: `remaining` rounds are left, the next index is `i`. -/
def executeLoop {σ M A : Type} (d : Deps σ M A) (ip : initParams) :
    Nat → Nat → ExecuteOut σ → ExecuteOut σ
  | 0, _, acc => acc
  | remaining + 1, i, acc =>
    let it := iteration d ip i acc.world
    match it.res with
    | .error err => { results := acc.results, err := some err, world := it.world }
    | .ok res =>
      executeLoop d ip remaining (i + 1)
        { results := acc.results.set i (some res), err := none, world := it.world }

/-- The method `Execute`; `make` panics on a negative length. The embedding is meant for
the lengths that `validateFlags` admits, 1 to `maxInitNum`: the limits of the run time on
the length of a slice are not part of it. -/
def initParams.Execute {σ M A : Type} (d : Deps σ M A) (ip : initParams) (w : σ) :
    Except Panic (ExecuteOut σ) :=
  if ip.numberOfSecrets < 0 then .error .makeslice
  else
    .ok (executeLoop d ip ip.numberOfSecrets.toNat 0
      { results := List.replicate ip.numberOfSecrets.toNat none, err := none, world := w })

/-- The world in which round `i` of the loop of `Execute` starts, when the loop starts in
`w` and the rounds before `i` have run. -/
def worldBefore {σ M A : Type} (d : Deps σ M A) (ip : initParams) (w : σ) : Nat → σ
  | 0 => w
  | i + 1 => (iteration d ip i (worldBefore d ip w i)).world

/-- Modelled from the spec: the key-material routines are outside the two files. By §4.3
they produce and persist a networking key, an account key pair (the validator key and
the validator BLS key) and a proof-of-possession signature; so, for the manager `m`, each
routine leaves every other secret as it is, and generating an account writes nothing. -/
def Deps.Framed {σ M A : Type} (d : Deps σ M A) (m : M) : Prop :=
  (∀ n w, n ≠ SecretName.NetworkKey →
    d.HasSecret m n (d.InitNetworkingPrivateKey m w).2 = d.HasSecret m n w ∧
    d.GetSecret m n (d.InitNetworkingPrivateKey m w).2 = d.GetSecret m n w) ∧
  (∀ n w,
    d.HasSecret m n (d.GenerateAccount w).2 = d.HasSecret m n w ∧
    d.GetSecret m n (d.GenerateAccount w).2 = d.GetSecret m n w) ∧
  (∀ a n w, n ≠ SecretName.ValidatorKey → n ≠ SecretName.ValidatorBLSKey →
    d.HasSecret m n (d.Save a m w).2 = d.HasSecret m n w ∧
    d.GetSecret m n (d.Save a m w).2 = d.GetSecret m n w) ∧
  (∀ a c n w, n ≠ SecretName.ValidatorBLSSignature →
    d.HasSecret m n (d.InitValidatorBLSSignature m a c w).2 = d.HasSecret m n w ∧
    d.GetSecret m n (d.InitValidatorBLSSignature m a c w).2 = d.GetSecret m n w)

/-- The world of the sample collaborators: the stored secrets, by data directory and
name. -/
abbrev SampleWorld := List ((String × SecretName) × GoBytes)

/-- Sample collaborators over an in-memory store: a manager is its data directory, an
account is the pair of its two private keys (generated from the size of the store), and
no operation fails except reading a secret that is not there. -/
def sampleDeps : Deps SampleWorld String (GoBytes × GoBytes) where
  GetSecretsManager dataDir _ _ w := (.ok dataDir, w)
  HasSecret m n w := (w.lookup (m, n)).isSome
  GetSecret m n w :=
    match w.lookup (m, n) with
    | some v => .ok v
    | none => .error (.external 404)
  InitNetworkingPrivateKey m w := (none, ((m, .NetworkKey), [1]) :: w)
  GenerateAccount w :=
    (([⟨w.length % 256, Nat.mod_lt _ (by decide)⟩], [⟨(w.length + 1) % 256, Nat.mod_lt _ (by decide)⟩]), w)
  Save a m w := (none, ((m, .ValidatorKey), a.1) :: ((m, .ValidatorBLSKey), a.2) :: w)
  NewAccountFromSecret m w :=
    match w.lookup (m, .ValidatorKey), w.lookup (m, .ValidatorBLSKey) with
    | some e, some b => .ok (e, b)
    | _, _ => .error (.external 404)
  InitValidatorBLSSignature m _ _ w := (none, ((m, .ValidatorBLSSignature), [4]) :: w)
  Address a := a.1
  BlsPublicKeyMarshal a := a.2
  MarshallPrivateKey a := .ok a.1
  BlsMarshal a := .ok a.2
  LoadNodeID m w :=
    match w.lookup (m, .NetworkKey) with
    | some _ => .ok ("node-" ++ m)
    | none => .error (.external 404)

/-- Sample parameters: the defaults of the flags, with the data directory `data` and
`n` secrets. -/
def sampleParams (n : Int) : initParams :=
  { dataPath := "data", configPath := "", generatesAccount := true, generatesNetwork := true,
    printPrivateKey := false, numberOfSecrets := n, insecureLocalStore := false,
    output := false, chainID := 100 }

/-- A store at `data` that holds the validator key, the validator BLS key and the
proof-of-possession signature, and no network key. -/
def sampleStore : SampleWorld :=
  [(("data", .ValidatorKey), [2]), (("data", .ValidatorBLSKey), [3]),
   (("data", .ValidatorBLSSignature), [4])]

/-- The store `sampleStore` with a network key added: a fully initialised store. -/
def sampleFullStore : SampleWorld :=
  (("data", .NetworkKey), [1]) :: sampleStore

end polybftsecrets

namespace big

theorem beValue_snoc (bs : GoBytes) (b : Byte) :
    beValue (bs ++ [b]) = beValue bs * 256 + b.val := by
  simp [beValue, List.foldl_append]

theorem bytesAux_eq (n : Nat) : ∀ (fuel : Nat) (acc : GoBytes), n ≤ fuel →
    bytesAux fuel n acc = bytesAux n n [] ++ acc := by
  induction n using Nat.strong_induction_on with
  | _ n ih =>
    intro fuel acc hle
    by_cases hn : n = 0
    · subst hn
      cases fuel <;> simp [bytesAux]
    · obtain ⟨k, rfl⟩ := Nat.exists_eq_succ_of_ne_zero hn
      obtain ⟨f, rfl⟩ := Nat.exists_eq_succ_of_ne_zero (by omega : fuel ≠ 0)
      have hdiv : (k + 1) / 256 < k + 1 := Nat.div_lt_self (by omega) (by decide)
      simp only [bytesAux, Nat.succ_eq_add_one, if_neg hn]
      rw [ih _ hdiv f _ (by omega), ih _ hdiv k [_] (by omega)]
      simp

theorem natBytes_zero : natBytes 0 = [] := rfl

theorem natBytes_pos (n : Nat) (hn : n ≠ 0) :
    natBytes n = natBytes (n / 256) ++ [⟨n % 256, Nat.mod_lt n (by decide)⟩] := by
  obtain ⟨k, rfl⟩ := Nat.exists_eq_succ_of_ne_zero hn
  have hdiv : (k + 1) / 256 < k + 1 := Nat.div_lt_self (by omega) (by decide)
  unfold natBytes
  simp only [bytesAux, Nat.succ_eq_add_one, if_neg hn]
  rw [bytesAux_eq _ k [_] (by omega)]

theorem natBytes_snoc (m : Nat) (b : Byte) (h : m * 256 + b.val ≠ 0) :
    natBytes (m * 256 + b.val) = natBytes m ++ [b] := by
  rw [natBytes_pos _ h]
  have h1 : (m * 256 + b.val) / 256 = m := by have := b.isLt; omega
  have h2 : (m * 256 + b.val) % 256 = b.val := by have := b.isLt; omega
  congr 1
  · rw [h1]
  · simp [h2]


theorem natBytes_beValue_pad (bs : GoBytes) :
    List.replicate (bs.length - (natBytes (beValue bs)).length) (0 : Byte)
      ++ natBytes (beValue bs) = bs := by
  induction bs using List.reverseRecOn with
  | nil => rfl
  | append_singleton bs b ih =>
    have hlen : (natBytes (beValue bs)).length ≤ bs.length := by
      have h := congrArg List.length ih
      simp only [List.length_append, List.length_replicate] at h
      omega
    rw [beValue_snoc]
    by_cases hz : beValue bs * 256 + b.val = 0
    · have hb : b = 0 := Fin.ext (by simp; omega)
      have hv : beValue bs = 0 := by omega
      rw [hv, natBytes_zero] at ih
      simp only [List.length_nil, Nat.sub_zero, List.append_nil] at ih
      rw [hz, natBytes_zero, hb]
      simp only [List.length_append, List.length_singleton, List.length_nil, Nat.sub_zero,
        List.append_nil, List.replicate_succ']
      rw [ih]
    · rw [natBytes_snoc _ _ hz]
      simp only [List.length_append, List.length_singleton, Nat.add_sub_add_right]
      rw [← List.append_assoc, ih]

theorem natBytes_length_le (k : Nat) : ∀ n : Nat, (natBytes n).length ≤ k ↔ n < 256 ^ k := by
  induction k with
  | zero =>
    intro n
    by_cases hn : n = 0
    · subst hn; simp [natBytes_zero]
    · rw [natBytes_pos n hn]
      simp only [List.length_append, List.length_singleton, pow_zero]
      omega
  | succ k ih =>
    intro n
    by_cases hn : n = 0
    · subst hn; simp [natBytes_zero]
    · rw [natBytes_pos n hn]
      simp only [List.length_append, List.length_singleton, Nat.add_le_add_iff_right]
      rw [ih, pow_succ, Nat.div_lt_iff_lt_mul (by decide)]

theorem Bytes_length_gt (x : Int) : 32 < (Bytes x).length ↔ 2 ^ 256 ≤ x.natAbs := by
  have h := natBytes_length_le 32 x.natAbs
  have e : (256 : Nat) ^ 32 = 2 ^ 256 := by norm_num
  unfold Bytes
  rw [e] at h
  omega

theorem foldl_eq_bigEndian (bs : GoBytes) : ∀ acc : Nat,
    bs.foldl (fun acc b => acc * 256 + b.val) acc
      = acc * 256 ^ bs.length + bls.bigEndian bs := by
  induction bs with
  | nil => intro acc; simp [bls.bigEndian]
  | cons b bs ih =>
    intro acc
    simp only [List.foldl_cons, ih, bls.bigEndian, List.length_cons, pow_succ]
    ring

theorem beValue_eq_bigEndian (bs : GoBytes) : beValue bs = bls.bigEndian bs := by
  unfold beValue
  rw [foldl_eq_bigEndian]
  simp

theorem bigEndian_lt (bs : GoBytes) : bls.bigEndian bs < 256 ^ bs.length := by
  induction bs with
  | nil => simp [bls.bigEndian]
  | cons b bs ih =>
    simp only [bls.bigEndian, List.length_cons, pow_succ]
    have hb := b.isLt
    have hp : 0 < 256 ^ bs.length := Nat.pow_pos (by decide)
    nlinarith

theorem leftPad_Bytes_SetBytes (bs : GoBytes) (h : bs.length = 32) :
    bls.leftPadTo32Bytes (Bytes (SetBytes bs)) = .ok bs := by
  have hp := natBytes_beValue_pad bs
  have hlen : (natBytes (beValue bs)).length ≤ 32 := by
    have h2 := congrArg List.length hp
    simp only [List.length_append, List.length_replicate] at h2
    omega
  have e : Bytes (SetBytes bs) = natBytes (beValue bs) := by
    simp [Bytes, SetBytes]
  rw [e]
  unfold bls.leftPadTo32Bytes
  rw [if_neg (by omega)]
  rw [h] at hp
  rw [hp]

end big

namespace bls

theorem goSlice_ok (s : GoBytes) (i j : Nat) (h : j ≤ s.length) :
    goSlice s i j = .ok (bytesFromTo s i j) := by
  unfold goSlice bytesFromTo
  rw [if_neg (by omega)]

theorem bytesFromTo_length (s : GoBytes) (i j : Nat) (h : j ≤ s.length) :
    (bytesFromTo s i j).length = j - i := by
  unfold bytesFromTo
  simp only [List.length_take, List.length_drop]
  omega

theorem blocks_append (s : GoBytes) (h : s.length = 128) :
    bytesFromTo s 0 32 ++ bytesFromTo s 32 64 ++ bytesFromTo s 64 96 ++ bytesFromTo s 96 128
      = s := by
  unfold bytesFromTo
  have e3 : (s.drop 96).take (128 - 96) = s.drop 96 :=
    List.take_of_length_le (by simp only [List.length_drop]; omega)
  have d1 : s.drop 64 = (s.drop 32).drop 32 := by rw [List.drop_drop]
  have d2 : s.drop 96 = (s.drop 64).drop 32 := by rw [List.drop_drop]
  rw [e3, List.append_assoc, d2]
  simp only [Nat.reduceSub, List.drop_zero]
  rw [List.take_append_drop, List.append_assoc, d1, List.take_append_drop,
    List.take_append_drop]

theorem ToBigInt_eq {G : Type} (c : Curve G) (k : PublicKey G) (g : G) (hp : k.p = some g)
    (hlen : (c.Marshal g).length = 128) :
    k.ToBigInt c = .ok
      ({ b0 := big.SetBytes (bytesFromTo (c.Marshal g) 32 64),
         b1 := big.SetBytes (bytesFromTo (c.Marshal g) 0 32),
         b2 := big.SetBytes (bytesFromTo (c.Marshal g) 96 128),
         b3 := big.SetBytes (bytesFromTo (c.Marshal g) 64 96) }, none) := by
  unfold PublicKey.ToBigInt PublicKey.Marshal
  rw [hp]
  simp only [bind, Except.bind, pure, Except.pure]
  rw [goSlice_ok _ 32 64 (by omega), goSlice_ok _ 0 32 (by omega),
    goSlice_ok _ 96 128 (by omega), goSlice_ok _ 64 96 (by omega)]

theorem UnmarshalPublicKeyFromBigInt_blocks {G : Type} (c : Curve G) (s : GoBytes)
    (h : s.length = 128) :
    UnmarshalPublicKeyFromBigInt c
      { b0 := big.SetBytes (bytesFromTo s 32 64), b1 := big.SetBytes (bytesFromTo s 0 32),
        b2 := big.SetBytes (bytesFromTo s 96 128), b3 := big.SetBytes (bytesFromTo s 64 96) }
      = UnmarshalPublicKey c s := by
  unfold UnmarshalPublicKeyFromBigInt
  simp only
  rw [big.leftPad_Bytes_SetBytes _ (by rw [bytesFromTo_length _ _ _ (by omega)]),
    big.leftPad_Bytes_SetBytes _ (by rw [bytesFromTo_length _ _ _ (by omega)]),
    big.leftPad_Bytes_SetBytes _ (by rw [bytesFromTo_length _ _ _ (by omega)]),
    big.leftPad_Bytes_SetBytes _ (by rw [bytesFromTo_length _ _ _ (by omega)])]
  simp only [List.nil_append]
  rw [blocks_append s h]

theorem leftPad_of_le (x : Int) (h : (big.Bytes x).length ≤ 32) :
    leftPadTo32Bytes (big.Bytes x) = .ok (pad32 x) := by
  unfold leftPadTo32Bytes pad32
  rw [if_neg (by omega)]

theorem leftPad_of_gt (x : Int) (h : 32 < (big.Bytes x).length) :
    leftPadTo32Bytes (big.Bytes x) = .error .padding := by
  unfold leftPadTo32Bytes
  rw [if_pos h]

theorem pad32_length (x : Int) (h : (big.Bytes x).length ≤ 32) : (pad32 x).length = 32 := by
  unfold pad32
  simp only [List.length_append, List.length_replicate]
  omega


/-- C1. Big-integer round trip: for every valid public key `k` (it holds a point whose
`Marshal` has 128 bytes and which `Unmarshal` decodes back to the same point, the identity
included), `k.ToBigInt()` returns four integers and a nil error, and
`UnmarshalPublicKeyFromBigInt` applied to them returns a nil error and a key equal to `k`,
after handing exactly the encoding of `k` to the point decoder. -/
theorem bigInt_roundtrip {G : Type} (c : Curve G) (k : PublicKey G) (hk : k.Valid c) :
    ∃ q : BigInt4, k.ToBigInt c = .ok (q, none) ∧
      (UnmarshalPublicKeyFromBigInt c q).err = none ∧
      (UnmarshalPublicKeyFromBigInt c q).key = some k ∧
      (k.Marshal c).map (fun m => [m]) = .ok (UnmarshalPublicKeyFromBigInt c q).calls := by
  obtain ⟨p⟩ := k
  cases p with
  | none => exact absurd hk (by simp [PublicKey.Valid])
  | some g =>
    obtain ⟨hlen, hdec⟩ : (c.Marshal g).length = 128 ∧ c.Unmarshal (c.Marshal g) = (g, none) := hk
    refine ⟨_, ToBigInt_eq c _ g rfl hlen, ?_⟩
    rw [UnmarshalPublicKeyFromBigInt_blocks c _ hlen]
    unfold UnmarshalPublicKey
    rw [if_neg (by omega), hdec]
    simp [PublicKey.Marshal, Except.map]

/-- Witness of C1 on the sample curve: the key holding the point 0, whose first block is
zero throughout and whose other blocks have 31 leading zero bytes. -/
theorem bigInt_roundtrip_witness :
    PublicKey.Valid sampleCurve { p := some 0 } ∧
    ∃ q : BigInt4, PublicKey.ToBigInt sampleCurve { p := some 0 } = .ok (q, none) ∧
      (UnmarshalPublicKeyFromBigInt sampleCurve q).err = none ∧
      (UnmarshalPublicKeyFromBigInt sampleCurve q).key = some { p := some 0 } ∧
      (PublicKey.Marshal sampleCurve { p := some 0 }).map (fun m => [m])
        = .ok (UnmarshalPublicKeyFromBigInt sampleCurve q).calls :=
  ⟨⟨by decide, by decide⟩,
   bigInt_roundtrip sampleCurve { p := some 0 } ⟨by decide, by decide⟩⟩

/-- C2. Coordinate order of the four-integer encoding: for every well-formed public key
`k` (it holds a point whose encoding `b` has 128 bytes; the identity is not special),
`k.ToBigInt()` returns a nil error and the big-endian unsigned values of `b[32:64]`,
`b[0:32]`, `b[96:128]`, `b[64:96]` in that order, each non-negative and below `2 ^ 256`. -/
theorem ToBigInt_order {G : Type} (c : Curve G) (k : PublicKey G) (g : G) (hp : k.p = some g)
    (hlen : (c.Marshal g).length = 128) :
    k.ToBigInt c = .ok
      ({ b0 := (bigEndian (((c.Marshal g).drop 32).take 32) : Int),
         b1 := (bigEndian ((c.Marshal g).take 32) : Int),
         b2 := (bigEndian (((c.Marshal g).drop 96).take 32) : Int),
         b3 := (bigEndian (((c.Marshal g).drop 64).take 32) : Int) }, none) ∧
    ∀ q e, k.ToBigInt c = .ok (q, e) →
      (0 ≤ q.b0 ∧ q.b0 < 2 ^ 256) ∧ (0 ≤ q.b1 ∧ q.b1 < 2 ^ 256) ∧
      (0 ≤ q.b2 ∧ q.b2 < 2 ^ 256) ∧ (0 ≤ q.b3 ∧ q.b3 < 2 ^ 256) := by
  have key : ∀ (i j : Nat), j ≤ 128 → j - i = 32 →
      big.SetBytes (bytesFromTo (c.Marshal g) i j)
        = (bigEndian (((c.Marshal g).drop i).take 32) : Int) ∧
      (0 : Int) ≤ (bigEndian (((c.Marshal g).drop i).take 32) : Int) ∧
      (bigEndian (((c.Marshal g).drop i).take 32) : Int) < 2 ^ 256 := by
    intro i j hj hij
    have hl : (((c.Marshal g).drop i).take 32).length = 32 := by
      simp only [List.length_take, List.length_drop]; omega
    have hb := big.bigEndian_lt (((c.Marshal g).drop i).take 32)
    rw [hl] at hb
    have e : (256 : Nat) ^ 32 = 2 ^ 256 := by norm_num
    rw [e] at hb
    refine ⟨?_, Int.ofNat_nonneg _, by exact_mod_cast hb⟩
    unfold big.SetBytes bytesFromTo
    rw [big.beValue_eq_bigEndian, hij]
    rfl
  have h0 := key 32 64 (by omega) (by omega)
  have h1 := key 0 32 (by omega) (by omega)
  have h2 := key 96 128 (by omega) (by omega)
  have h3 := key 64 96 (by omega) (by omega)
  rw [List.drop_zero] at h1
  have hres := ToBigInt_eq c k g hp hlen
  rw [h0.1, h1.1, h2.1, h3.1] at hres
  refine ⟨hres, ?_⟩
  intro q e hq
  rw [hres] at hq
  cases hq
  exact ⟨h0.2, h1.2, h2.2, h3.2⟩

/-- Witness of C2 on the sample curve, at the key holding the point 5. -/
theorem ToBigInt_order_witness :
    PublicKey.ToBigInt sampleCurve { p := some 5 } = .ok
      ({ b0 := (bigEndian (((sampleCurve.Marshal 5).drop 32).take 32) : Int),
         b1 := (bigEndian ((sampleCurve.Marshal 5).take 32) : Int),
         b2 := (bigEndian (((sampleCurve.Marshal 5).drop 96).take 32) : Int),
         b3 := (bigEndian (((sampleCurve.Marshal 5).drop 64).take 32) : Int) }, none) ∧
    ∀ q e, PublicKey.ToBigInt sampleCurve { p := some 5 } = .ok (q, e) →
      (0 ≤ q.b0 ∧ q.b0 < 2 ^ 256) ∧ (0 ≤ q.b1 ∧ q.b1 < 2 ^ 256) ∧
      (0 ≤ q.b2 ∧ q.b2 < 2 ^ 256) ∧ (0 ≤ q.b3 ∧ q.b3 < 2 ^ 256) :=
  ToBigInt_order sampleCurve { p := some 5 } 5 rfl (by decide)

/-- C6. Empty input is rejected explicitly: for every byte slice of length zero,
`UnmarshalPublicKey` returns the error of the empty slice and a nil key, and the curve
decoder is not called. -/
theorem UnmarshalPublicKey_empty {G : Type} (c : Curve G) (raw : GoBytes)
    (h : raw.length = 0) :
    UnmarshalPublicKey c raw = { key := none, err := some Error.emptySlice, calls := [] } := by
  unfold UnmarshalPublicKey
  rw [if_pos h]

/-- Witness of C6 on the sample curve. -/
theorem UnmarshalPublicKey_empty_witness :
    UnmarshalPublicKey sampleCurve [] =
      { key := none, err := some Error.emptySlice, calls := [] } :=
  UnmarshalPublicKey_empty sampleCurve [] rfl

/-- C7, the behaviour of the code. When the JSON document decodes to a byte string of
length zero, `UnmarshalJSON` does not return: `UnmarshalPublicKey` gives back a nil key
next to its error and `p.p = pk.p` dereferences it. -/
theorem UnmarshalJSON_empty_panics {G : Type} (c : Curve G)
    (jsonUnmarshal : GoBytes → Except Nat GoBytes) (p : PublicKey G) (b d : GoBytes)
    (hd : jsonUnmarshal b = .ok d) (hlen : d.length = 0) :
    PublicKey.UnmarshalJSON c jsonUnmarshal p b = .error Panic.nilDereference := by
  unfold PublicKey.UnmarshalJSON UnmarshalPublicKey
  rw [hd]
  simp only [if_pos hlen]

/-- Witness of C7: the JSON document `""` (two quotation marks) given to a receiver that
holds the point 7 of the sample curve. -/
theorem UnmarshalJSON_empty_panics_witness :
    PublicKey.UnmarshalJSON sampleCurve sampleJSON { p := some 7 } [34, 34]
      = .error Panic.nilDereference :=
  UnmarshalJSON_empty_panics sampleCurve sampleJSON { p := some 7 } [34, 34] [] (by decide) rfl

/-- C8. Over-wide integers are rejected, never truncated. When one of the four integers
has more than 32 bytes, `UnmarshalPublicKeyFromBigInt` returns the padding error and a
nil key and the point decoder is not called. When all four fit in 32 bytes, the result is
that of `UnmarshalPublicKey` on the 128 bytes `pad32 b[1] ++ pad32 b[0] ++ pad32 b[3] ++
pad32 b[2]`, and this buffer is the one handed to the point decoder. An integer has more
than 32 bytes exactly when its absolute value is at least `2 ^ 256`. -/
theorem UnmarshalPublicKeyFromBigInt_width {G : Type} (c : Curve G) (b : BigInt4) :
    ((32 < (big.Bytes b.b0).length ∨ 32 < (big.Bytes b.b1).length ∨
        32 < (big.Bytes b.b2).length ∨ 32 < (big.Bytes b.b3).length) →
      UnmarshalPublicKeyFromBigInt c b
        = { key := none, err := some Error.padding, calls := [] }) ∧
    (((big.Bytes b.b0).length ≤ 32 ∧ (big.Bytes b.b1).length ≤ 32 ∧
        (big.Bytes b.b2).length ≤ 32 ∧ (big.Bytes b.b3).length ≤ 32) →
      (pad32 b.b1 ++ pad32 b.b0 ++ pad32 b.b3 ++ pad32 b.b2).length = 128 ∧
      UnmarshalPublicKeyFromBigInt c b
        = UnmarshalPublicKey c (pad32 b.b1 ++ pad32 b.b0 ++ pad32 b.b3 ++ pad32 b.b2) ∧
      (UnmarshalPublicKeyFromBigInt c b).calls
        = [pad32 b.b1 ++ pad32 b.b0 ++ pad32 b.b3 ++ pad32 b.b2]) ∧
    (∀ x : Int, 32 < (big.Bytes x).length ↔ 2 ^ 256 ≤ x.natAbs) := by
  refine ⟨?_, ?_, big.Bytes_length_gt⟩
  · intro h
    unfold UnmarshalPublicKeyFromBigInt
    by_cases h1 : 32 < (big.Bytes b.b1).length
    · rw [leftPad_of_gt _ h1]
    · rw [leftPad_of_le _ (by omega)]
      by_cases h0 : 32 < (big.Bytes b.b0).length
      · simp only [leftPad_of_gt _ h0]
      · simp only [leftPad_of_le b.b0 (by omega)]
        by_cases h3 : 32 < (big.Bytes b.b3).length
        · simp only [leftPad_of_gt _ h3]
        · simp only [leftPad_of_le b.b3 (by omega)]
          have h2 : 32 < (big.Bytes b.b2).length := by omega
          simp only [leftPad_of_gt _ h2]
  · rintro ⟨h0, h1, h2, h3⟩
    have hl : (pad32 b.b1 ++ pad32 b.b0 ++ pad32 b.b3 ++ pad32 b.b2).length = 128 := by
      simp only [List.length_append, pad32_length _ h0, pad32_length _ h1,
        pad32_length _ h2, pad32_length _ h3]
    have he : UnmarshalPublicKeyFromBigInt c b
        = UnmarshalPublicKey c (pad32 b.b1 ++ pad32 b.b0 ++ pad32 b.b3 ++ pad32 b.b2) := by
      unfold UnmarshalPublicKeyFromBigInt
      simp only [leftPad_of_le _ h0, leftPad_of_le _ h1, leftPad_of_le _ h2,
        leftPad_of_le _ h3, List.nil_append]
    refine ⟨hl, he, ?_⟩
    rw [he]
    unfold UnmarshalPublicKey
    rw [if_neg (by omega)]

/-- Witness of C8 on the sample curve: the tuple whose element 2 is `2 ^ 256` is
rejected, and the tuple `[1, 0, 3, 2]` is decoded from the encoding of the point 0. -/
theorem UnmarshalPublicKeyFromBigInt_width_witness :
    UnmarshalPublicKeyFromBigInt sampleCurve
        { b0 := 1, b1 := 2,
          b2 := 115792089237316195423570985008687907853269984665640564039457584007913129639936,
          b3 := 4 }
      = { key := none, err := some Error.padding, calls := [] } ∧
    (UnmarshalPublicKeyFromBigInt sampleCurve { b0 := 1, b1 := 0, b2 := 3, b3 := 2 }).calls
      = [pad32 0 ++ pad32 1 ++ pad32 2 ++ pad32 3] :=
  ⟨(UnmarshalPublicKeyFromBigInt_width sampleCurve _).1 (by decide),
   ((UnmarshalPublicKeyFromBigInt_width sampleCurve
      { b0 := 1, b1 := 0, b2 := 3, b3 := 2 }).2.1 (by decide)).2.2⟩


theorem aggregateLoop_eq {G : Type} [AddCommGroup G] (l : List (PublicKey G)) : ∀ res : G,
    aggregateLoop l res = (sumPoints l).map (fun s => { p := some (res + s) }) := by
  induction l with
  | nil => intro res; simp [aggregateLoop, sumPoints, Except.map]
  | cons k ks ih =>
    intro res
    unfold aggregateLoop sumPoints
    cases hk : k.p with
    | none => simp [Except.map]
    | some q =>
      simp only [ih]
      cases hs : sumPoints ks with
      | error e => simp [Except.map]
      | ok s => simp [Except.map, add_assoc]

theorem aggregatePublicKeys_eq {G : Type} [AddCommGroup G] (l : List (PublicKey G)) :
    aggregatePublicKeys l = (sumPoints l).map (fun s => { p := some s }) := by
  unfold aggregatePublicKeys zeroG2
  rw [aggregateLoop_eq]
  simp

theorem sumPoints_perm {G : Type} [AddCommGroup G] {l₁ l₂ : List (PublicKey G)}
    (h : l₁.Perm l₂) : sumPoints l₁ = sumPoints l₂ := by
  induction h with
  | nil => rfl
  | cons k _ ih => unfold sumPoints; rw [ih]
  | swap a b l =>
    simp only [sumPoints]
    cases ha : a.p <;> cases hb : b.p <;> cases hs : sumPoints l <;>
      simp [add_left_comm]
  | trans _ _ ih₁ ih₂ => rw [ih₁, ih₂]

theorem sumPoints_append {G : Type} [AddCommGroup G] (A B : List (PublicKey G)) :
    sumPoints (A ++ B) =
      match sumPoints A with
      | .error e => .error e
      | .ok a =>
        match sumPoints B with
        | .error e => .error e
        | .ok b => .ok (a + b) := by
  induction A with
  | nil =>
    simp only [List.nil_append, sumPoints]
    cases sumPoints B <;> simp
  | cons k ks ih =>
    rw [List.cons_append]
    simp only [sumPoints]
    rw [ih]
    cases hk : k.p <;> cases hs : sumPoints ks <;> cases hb : sumPoints B <;>
      simp [add_assoc]

/-- C3. Aggregation is permutation-invariant: for every sequence of public keys and every
permutation of it, `aggregatePublicKeys` gives the same outcome on both, addition of
points being that of a commutative group. The outcome is the key holding the sum, or the
nil dereference when some key of the sequence holds no point. -/
theorem aggregatePublicKeys_perm {G : Type} [AddCommGroup G] (keys keys' : List (PublicKey G))
    (h : keys.Perm keys') :
    aggregatePublicKeys keys = aggregatePublicKeys keys' := by
  rw [aggregatePublicKeys_eq, aggregatePublicKeys_eq, sumPoints_perm h]

/-- Witness of C3 over the integers: three keys and a rotation of them. -/
theorem aggregatePublicKeys_perm_witness :
    aggregatePublicKeys [({ p := some 1 } : PublicKey Int), { p := some 2 }, { p := some 3 }]
      = aggregatePublicKeys [({ p := some 3 } : PublicKey Int), { p := some 1 }, { p := some 2 }] :=
  aggregatePublicKeys_perm _ _ (by decide)

/-- C4, as amended. Aggregation identity law: `aggregatePublicKeys` of the empty sequence
returns the key whose point is `zeroG2`, and for every public key `k` whose point pointer
is not nil, `aggregatePublicKeys [k]` returns a key equal to `k`. -/
theorem aggregatePublicKeys_identity {G : Type} [AddCommGroup G] :
    aggregatePublicKeys ([] : List (PublicKey G)) = .ok { p := some zeroG2 } ∧
    ∀ k : PublicKey G, k.p ≠ none → aggregatePublicKeys [k] = .ok k := by
  constructor
  · rfl
  · intro k hk
    obtain ⟨p⟩ := k
    cases p with
    | none => exact absurd rfl hk
    | some g => simp [aggregatePublicKeys, aggregateLoop, zeroG2]

/-- Witness of C4 as amended, over the integers: the key holding the point 5. -/
theorem aggregatePublicKeys_identity_witness :
    ({ p := some 5 } : PublicKey Int).p ≠ none ∧
    aggregatePublicKeys [({ p := some 5 } : PublicKey Int)] = .ok { p := some 5 } :=
  ⟨by decide, (@aggregatePublicKeys_identity Int _).2 { p := some 5 } (by decide)⟩

/-- C4, counterexample. For the key whose point pointer is nil, the value `PublicKey{}`
that `aggregate` provides for in its receiver, `aggregatePublicKeys [k]` returns no key:
the addition dereferences the nil pointer. So the law does not hold for every key. -/
theorem aggregatePublicKeys_nil_point :
    aggregatePublicKeys [({ p := none } : PublicKey Int)] = .error Panic.nilDereference ∧
    ¬ ∀ k : PublicKey Int, aggregatePublicKeys [k] = .ok k :=
  ⟨by decide, fun h => absurd (h { p := none }) (by decide)⟩

/-- C5. Aggregation grouping: for all sequences `A` and `B` of public keys,
`aggregatePublicKeys (A ++ B)` is the aggregate of the two-element sequence made of the
aggregates of `A` and of `B`, and is also the pairwise `aggregate` of these two. -/
theorem aggregatePublicKeys_append {G : Type} [AddCommGroup G] (A B : List (PublicKey G)) :
    aggregatePublicKeys (A ++ B)
      = (aggregatePublicKeys A >>= fun a =>
          aggregatePublicKeys B >>= fun b => aggregatePublicKeys [a, b]) ∧
    aggregatePublicKeys (A ++ B)
      = (aggregatePublicKeys A >>= fun a =>
          aggregatePublicKeys B >>= fun b => a.aggregate b) := by
  simp only [aggregatePublicKeys_eq, sumPoints_append]
  cases hA : sumPoints A with
  | error e => exact ⟨rfl, rfl⟩
  | ok a =>
    cases hB : sumPoints B with
    | error e => exact ⟨rfl, rfl⟩
    | ok b =>
      constructor
      · simp [Except.map, bind, Except.bind, sumPoints]
      · simp [Except.map, bind, Except.bind, PublicKey.aggregate]

end bls

namespace polybftsecrets

theorem iteration_ok {σ M A : Type} (d : Deps σ M A) (ip : initParams) (i : Nat) (w : σ)
    (r : SecretsInitResult) (h : (iteration d ip i w).res = .ok r) :
    ∃ m w1 gen w2,
      d.GetSecretsManager
          (if 1 < ip.numberOfSecrets then ip.dataPath ++ toString (i + 1) else ip.dataPath)
          (if ip.configPath ≠ "" ∧ 1 < ip.numberOfSecrets then ip.configPath ++ toString (i + 1)
           else ip.configPath)
          ip.insecureLocalStore w = (.ok m, w1) ∧
      ((ip.output = true ∧ gen = [] ∧ w2 = w1) ∨
        (ip.output = false ∧ (initKeys d ip m w1).err = none ∧
          gen = (initKeys d ip m w1).generated ∧ w2 = (initKeys d ip m w1).world)) ∧
      getResult d ip m gen w2 = .ok r ∧
      (iteration d ip i w).world = w2 := by
  rcases hg : d.GetSecretsManager
      (if 1 < ip.numberOfSecrets then ip.dataPath ++ toString (i + 1) else ip.dataPath)
      (if ip.configPath ≠ "" ∧ 1 < ip.numberOfSecrets then ip.configPath ++ toString (i + 1)
       else ip.configPath)
      ip.insecureLocalStore w with ⟨e | m, w1⟩
  · have hi : (iteration d ip i w).res = .error e := by
      unfold iteration
      simp only [gt_iff_lt, hg]
    rw [hi] at h
    cases h
  · cases ho : ip.output with
    | true =>
      have hi : iteration d ip i w = { res := getResult d ip m [] w1, world := w1 } := by
        unfold iteration
        simp only [gt_iff_lt, hg, ho, Bool.not_true, Bool.false_eq_true, if_false]
      rw [hi] at h ⊢
      exact ⟨m, w1, [], w1, rfl, Or.inl ⟨rfl, rfl, rfl⟩, h, rfl⟩
    | false =>
      cases he : (initKeys d ip m w1).err with
      | some e =>
        have hi : (iteration d ip i w).res = .error e := by
          unfold iteration
          simp only [gt_iff_lt, hg, ho, he, Bool.not_false, if_true]
        rw [hi] at h
        cases h
      | none =>
        have hi : iteration d ip i w =
            { res := getResult d ip m (initKeys d ip m w1).generated (initKeys d ip m w1).world,
              world := (initKeys d ip m w1).world } := by
          unfold iteration
          simp only [gt_iff_lt, hg, ho, he, Bool.not_false, if_true]
        rw [hi] at h ⊢
        exact ⟨m, w1, _, _, rfl, Or.inr ⟨rfl, he, rfl, rfl⟩, h, rfl⟩

theorem executeLoop_length {σ M A : Type} (d : Deps σ M A) (ip : initParams) (n : Nat) :
    ∀ (i : Nat) (acc : ExecuteOut σ),
      (executeLoop d ip n i acc).results.length = acc.results.length := by
  induction n with
  | zero => intro i acc; rfl
  | succ n ih =>
    intro i acc
    unfold executeLoop
    simp only
    split
    · rfl
    · rw [ih]; simp

theorem executeLoop_spec {σ M A : Type} (d : Deps σ M A) (ip : initParams) (w : σ) (n : Nat) :
    ∀ (i : Nat) (acc : ExecuteOut σ), acc.world = worldBefore d ip w i →
      (executeLoop d ip n i acc).err = none →
      (executeLoop d ip n i acc).world = worldBefore d ip w (i + n) ∧
      (∀ j, j < i → (executeLoop d ip n i acc).results[j]? = acc.results[j]?) ∧
      (∀ j, i ≤ j → j < i + n → j < acc.results.length →
        ∃ r, (iteration d ip j (worldBefore d ip w j)).res = .ok r ∧
          (executeLoop d ip n i acc).results[j]? = some (some r)) := by
  induction n with
  | zero =>
    intro i acc hw _
    refine ⟨by simpa [executeLoop] using hw, fun j _ => rfl, fun j h1 h2 => by omega⟩
  | succ n ih =>
    intro i acc hw herr
    unfold executeLoop at herr ⊢
    simp only at herr ⊢
    rw [hw] at herr ⊢
    cases hres : (iteration d ip i (worldBefore d ip w i)).res with
    | error e => rw [hres] at herr; simp at herr
    | ok r =>
      rw [hres] at herr
      simp only at herr ⊢
      obtain ⟨h1, h2, h3⟩ := ih (i + 1) _ (by rfl) herr
      refine ⟨?_, ?_, ?_⟩
      · rw [h1]
        congr 1
        omega
      · intro j hj
        rw [h2 j (by omega)]
        simp only
        rw [List.getElem?_set_ne (by omega)]
      · intro j hij hjn hjl
        by_cases hji : j = i
        · subst hji
          refine ⟨r, hres, ?_⟩
          rw [h2 j (by omega)]
          simp only
          rw [List.getElem?_set_self hjl]
        · exact h3 j (by omega) (by omega) (by simpa using hjl)

/-- C9. Batch path derivation and result order. For every number `N` of secrets with
`1 ≤ N ≤ 30` and every base data path, `Execute` returns, and its result list has length
exactly `N`. When the run is fully successful (the returned error is nil), then for every
`i < N`: round `i` called `GetSecretsManager` with the data directory `dataPath`
followed by the decimal `i + 1` when `1 < N`, and with `dataPath` unchanged when `N = 1`;
the call was made in the world left by the rounds before `i`, so the stores are opened in
index order; it gave a manager `m`; unless only output was asked for, `initKeys` ran on
`m` without error; and the entry `i` of the list is the result that `getResult` obtained
from `m`. The run ends in the world left by round `N - 1`. -/
theorem Execute_paths_and_order {σ M A : Type} (d : Deps σ M A) (ip : initParams) (w : σ)
    (hN : 1 ≤ ip.numberOfSecrets) (hmax : ip.numberOfSecrets ≤ maxInitNum) :
    ∃ out, ip.Execute d w = .ok out ∧
      out.results.length = ip.numberOfSecrets.toNat ∧
      (out.err = none →
        worldBefore d ip w 0 = w ∧
        out.world = worldBefore d ip w ip.numberOfSecrets.toNat ∧
        ∀ i, i < ip.numberOfSecrets.toNat →
          ∃ m w1 gen w2 r,
            d.GetSecretsManager
                (if 1 < ip.numberOfSecrets then ip.dataPath ++ toString (i + 1)
                 else ip.dataPath)
                (if ip.configPath ≠ "" ∧ 1 < ip.numberOfSecrets then
                   ip.configPath ++ toString (i + 1)
                 else ip.configPath)
                ip.insecureLocalStore (worldBefore d ip w i) = (.ok m, w1) ∧
            ((ip.output = true ∧ gen = [] ∧ w2 = w1) ∨
              (ip.output = false ∧ (initKeys d ip m w1).err = none ∧
                gen = (initKeys d ip m w1).generated ∧ w2 = (initKeys d ip m w1).world)) ∧
            getResult d ip m gen w2 = .ok r ∧
            worldBefore d ip w (i + 1) = w2 ∧
            out.results[i]? = some (some r)) := by
  have _ := hmax
  refine ⟨_, by unfold initParams.Execute; rw [if_neg (by omega)], ?_, ?_⟩
  · rw [executeLoop_length]; simp
  · intro herr
    obtain ⟨h1, _, h3⟩ := executeLoop_spec d ip w ip.numberOfSecrets.toNat 0 _ rfl herr
    refine ⟨rfl, by simpa using h1, ?_⟩
    intro i hi
    obtain ⟨r, hr, hres⟩ := h3 i (by omega) (by omega) (by simpa using hi)
    obtain ⟨m, w1, gen, w2, hg, hk, hget, hw⟩ := iteration_ok d ip i _ r hr
    exact ⟨m, w1, gen, w2, r, hg, hk, hget, hw, hres⟩

theorem initSignature_keeps {σ M A : Type} (d : Deps σ M A) (ip : initParams) (m : M) (a : A)
    (generated : List SecretName) (w : σ) (hd : d.Framed m) (n : SecretName)
    (hn : d.HasSecret m n w = true) (hg : n ∉ generated) :
    n ∉ (initSignature d ip m a generated w).generated ∧
    d.HasSecret m n (initSignature d ip m a generated w).world = true ∧
    d.GetSecret m n (initSignature d ip m a generated w).world = d.GetSecret m n w := by
  unfold initSignature
  by_cases hs : d.HasSecret m .ValidatorBLSSignature w = true
  · simp [hs, hn, hg]
  · have hne : n ≠ SecretName.ValidatorBLSSignature := by
      intro h; rw [h] at hn; exact hs hn
    have hf := hd.2.2.2 a ip.chainID n w hne
    rcases hr : d.InitValidatorBLSSignature m a ip.chainID w with ⟨_ | e, w1⟩ <;>
      rw [hr] at hf <;> simp [hs, hg, hne, hf.1, hf.2, hn]

theorem initAccount_keeps {σ M A : Type} (d : Deps σ M A) (ip : initParams) (m : M)
    (generated : List SecretName) (w : σ) (hd : d.Framed m) (n : SecretName)
    (hn : d.HasSecret m n w = true) (hg : n ∉ generated) :
    n ∉ (initAccount d ip m generated w).generated ∧
    d.HasSecret m n (initAccount d ip m generated w).world = true ∧
    d.GetSecret m n (initAccount d ip m generated w).world = d.GetSecret m n w := by
  unfold initAccount
  by_cases ha : ip.generatesAccount = true
  · rw [if_pos ha]
    by_cases hc : (!d.HasSecret m .ValidatorKey w && !d.HasSecret m .ValidatorBLSKey w) = true
    · rw [if_pos hc]
      simp only [Bool.and_eq_true, Bool.not_eq_true'] at hc
      have hne1 : n ≠ SecretName.ValidatorKey := by
        intro h; rw [h, hc.1] at hn; cases hn
      have hne2 : n ≠ SecretName.ValidatorBLSKey := by
        intro h; rw [h, hc.2] at hn; cases hn
      have hgen := hd.2.1 n w
      have hf := hd.2.2.1 (d.GenerateAccount w).1 n (d.GenerateAccount w).2 hne1 hne2
      rw [hgen.1, hgen.2] at hf
      rcases hr : d.Save (d.GenerateAccount w).1 m (d.GenerateAccount w).2 with ⟨_ | e, w2⟩
      · rw [hr] at hf
        simp only [hr]
        have h := initSignature_keeps d ip m (d.GenerateAccount w).1
          (generated ++ [.ValidatorKey, .ValidatorBLSKey]) w2 hd n (by rw [hf.1, hn])
          (by simp [hg, hne1, hne2])
        rw [hf.2] at h
        exact h
      · rw [hr] at hf
        simp only [hr]
        exact ⟨hg, by rw [hf.1, hn], hf.2⟩
    · rw [if_neg hc]
      cases hl : d.NewAccountFromSecret m w with
      | error e => simp [hg, hn]
      | ok a => exact initSignature_keeps d ip m a generated w hd n hn hg
  · rw [if_neg ha]
    simp [hg, hn]

theorem initKeys_keeps {σ M A : Type} (d : Deps σ M A) (ip : initParams) (m : M) (w : σ)
    (hd : d.Framed m) (n : SecretName) (hn : d.HasSecret m n w = true) :
    n ∉ (initKeys d ip m w).generated ∧
    d.HasSecret m n (initKeys d ip m w).world = true ∧
    d.GetSecret m n (initKeys d ip m w).world = d.GetSecret m n w := by
  unfold initKeys
  by_cases hnet : ip.generatesNetwork = true
  · rw [if_pos hnet]
    by_cases hc : (!d.HasSecret m .NetworkKey w) = true
    · rw [if_pos hc]
      simp only [Bool.not_eq_true'] at hc
      have hne : n ≠ SecretName.NetworkKey := by
        intro h; rw [h, hc] at hn; cases hn
      have hf := hd.1 n w hne
      rcases hr : d.InitNetworkingPrivateKey m w with ⟨_ | e, w1⟩
      · rw [hr] at hf
        simp only [hr]
        have h := initAccount_keeps d ip m ([] ++ [.NetworkKey]) w1 hd n (by rw [hf.1, hn])
          (by simp [hne])
        rw [hf.2] at h
        exact h
      · rw [hr] at hf
        simp only [hr]
        exact ⟨by simp, by rw [hf.1, hn], hf.2⟩
    · rw [if_neg hc]
      exact initAccount_keeps d ip m [] w hd n hn (by simp)
  · rw [if_neg hnet]
    exact initAccount_keeps d ip m [] w hd n hn (by simp)

theorem initAccount_present {σ M A : Type} (d : Deps σ M A) (ip : initParams) (m : M)
    (generated : List SecretName) (w : σ)
    (hb : d.HasSecret m .ValidatorBLSKey w = true)
    (hs : d.HasSecret m .ValidatorBLSSignature w = true) :
    (initAccount d ip m generated w).generated = generated ∧
    (initAccount d ip m generated w).world = w := by
  unfold initAccount
  by_cases ha : ip.generatesAccount = true
  · rw [if_pos ha]
    simp only [hb, Bool.not_true, Bool.and_false, Bool.false_eq_true, if_false]
    cases hl : d.NewAccountFromSecret m w with
    | error e => simp
    | ok a => simp [initSignature, hs]
  · rw [if_neg ha]
    simp

theorem sampleDeps_framed (m : String) : sampleDeps.Framed m := by
  refine ⟨?_, ?_, ?_, ?_⟩
  · intro n w hn
    have e : ((m, n) == (m, SecretName.NetworkKey)) = false := by simp [hn]
    simp [sampleDeps, List.lookup, e]
  · intro n w
    simp [sampleDeps]
  · intro a n w h1 h2
    have e1 : ((m, n) == (m, SecretName.ValidatorKey)) = false := by simp [h1]
    have e2 : ((m, n) == (m, SecretName.ValidatorBLSKey)) = false := by simp [h2]
    simp [sampleDeps, List.lookup, e1, e2]
  · intro a c n w hn
    have e : ((m, n) == (m, SecretName.ValidatorBLSSignature)) = false := by simp [hn]
    simp [sampleDeps, List.lookup, e]

/-- C10, as amended. Provided each key routine writes its own secrets only: `initKeys`
never lists as generated, removes or overwrites a secret that `HasSecret` reports as
present. For a store that holds a validator BLS key and a proof-of-possession signature,
the generated list is empty or holds the network key alone; it is empty, and the store
is left as it is, when network keys are not asked for or the network key is present. -/
theorem initKeys_idempotent {σ M A : Type} (d : Deps σ M A) (ip : initParams) (m : M) (w : σ)
    (hd : d.Framed m) :
    (∀ n, d.HasSecret m n w = true →
      n ∉ (initKeys d ip m w).generated ∧
      d.HasSecret m n (initKeys d ip m w).world = true ∧
      d.GetSecret m n (initKeys d ip m w).world = d.GetSecret m n w) ∧
    (d.HasSecret m .ValidatorBLSKey w = true →
      d.HasSecret m .ValidatorBLSSignature w = true →
      ((initKeys d ip m w).generated = [] ∨
        (initKeys d ip m w).generated = [SecretName.NetworkKey]) ∧
      ((ip.generatesNetwork = false ∨ d.HasSecret m .NetworkKey w = true) →
        (initKeys d ip m w).generated = [] ∧ (initKeys d ip m w).world = w)) := by
  refine ⟨fun n hn => initKeys_keeps d ip m w hd n hn, ?_⟩
  intro hb hs
  constructor
  · unfold initKeys
    by_cases hnet : ip.generatesNetwork = true
    · rw [if_pos hnet]
      by_cases hc : (!d.HasSecret m .NetworkKey w) = true
      · rw [if_pos hc]
        have hfb := hd.1 .ValidatorBLSKey w (by decide)
        have hfs := hd.1 .ValidatorBLSSignature w (by decide)
        rcases hr : d.InitNetworkingPrivateKey m w with ⟨_ | e, w1⟩
        · rw [hr] at hfb hfs
          simp only [hr]
          right
          exact (initAccount_present d ip m _ w1 (by rw [hfb.1, hb]) (by rw [hfs.1, hs])).1
        · left; simp only [hr]
      · rw [if_neg hc]
        left
        exact (initAccount_present d ip m [] w hb hs).1
    · rw [if_neg hnet]
      left
      exact (initAccount_present d ip m [] w hb hs).1
  · intro h
    unfold initKeys
    rcases h with h | h
    · simp only [h, Bool.false_eq_true, if_false]
      exact initAccount_present d ip m [] w hb hs
    · simp only [h, Bool.not_true, Bool.false_eq_true, if_false, ite_self]
      exact initAccount_present d ip m [] w hb hs


/-- Witness of C9 on the sample collaborators: three secrets below the base path `data`,
starting from an empty world. The run succeeds and returns three results; round `i`
opens the store at `data` followed by `i + 1`, that is `data1`, `data2`, `data3`, and
entry `i` is the result obtained from that store. -/
theorem Execute_paths_and_order_witness :
    (1 : Int) ≤ (sampleParams 3).numberOfSecrets ∧
    (sampleParams 3).numberOfSecrets ≤ maxInitNum ∧
    (List.range 3).map (fun i => "data" ++ toString (i + 1)) = ["data1", "data2", "data3"] ∧
    ∃ out, (sampleParams 3).Execute sampleDeps [] = .ok out ∧
      out.results.length = 3 ∧ out.err = none ∧
      ∀ i, i < 3 →
        ∃ m w1 gen w2 r,
          sampleDeps.GetSecretsManager ("data" ++ toString (i + 1)) "" false
              (worldBefore sampleDeps (sampleParams 3) [] i) = (.ok m, w1) ∧
          getResult sampleDeps (sampleParams 3) m gen w2 = .ok r ∧
          out.results[i]? = some (some r) := by
  refine ⟨by decide, by decide, by decide, ?_⟩
  obtain ⟨out, h, hl, hs⟩ :=
    Execute_paths_and_order sampleDeps (sampleParams 3) [] (by decide) (by decide)
  have he : (((sampleParams 3).Execute sampleDeps []).map fun o => o.err) = .ok none := by
    decide
  rw [h] at he
  have herr : out.err = none := by simpa [Except.map] using he
  obtain ⟨_, _, h3⟩ := hs herr
  refine ⟨out, h, hl, herr, ?_⟩
  intro i hi
  obtain ⟨m, w1, gen, w2, r, hg, _, hr, _, hres⟩ := h3 i hi
  exact ⟨m, w1, gen, w2, r, hg, hr, hres⟩

/-- C10, counterexample. The store `sampleStore` holds a validator BLS key and a
proof-of-possession signature, and `initKeys` with the default flags succeeds on it with
a generated list that is not empty: it holds the network key. -/
theorem initKeys_generated_not_empty :
    sampleDeps.HasSecret "data" .ValidatorBLSKey sampleStore = true ∧
    sampleDeps.HasSecret "data" .ValidatorBLSSignature sampleStore = true ∧
    (initKeys sampleDeps (sampleParams 1) "data" sampleStore).err = none ∧
    (initKeys sampleDeps (sampleParams 1) "data" sampleStore).generated
      = [SecretName.NetworkKey] ∧
    (initKeys sampleDeps (sampleParams 1) "data" sampleStore).generated ≠ [] := by
  decide

/-- Witness of C10 as amended, on the sample collaborators and the fully initialised
store: nothing is generated, the store is left as it is, and the validator BLS key is
neither listed nor changed. -/
theorem initKeys_idempotent_witness :
    sampleDeps.Framed "data" ∧
    (initKeys sampleDeps (sampleParams 1) "data" sampleFullStore).generated = [] ∧
    (initKeys sampleDeps (sampleParams 1) "data" sampleFullStore).world = sampleFullStore ∧
    sampleDeps.GetSecret "data" .ValidatorBLSKey
        (initKeys sampleDeps (sampleParams 1) "data" sampleFullStore).world
      = sampleDeps.GetSecret "data" .ValidatorBLSKey sampleFullStore :=
  ⟨sampleDeps_framed "data",
   (((initKeys_idempotent sampleDeps (sampleParams 1) "data" sampleFullStore
      (sampleDeps_framed "data")).2 (by decide) (by decide)).2 (Or.inr (by decide))).1,
   (((initKeys_idempotent sampleDeps (sampleParams 1) "data" sampleFullStore
      (sampleDeps_framed "data")).2 (by decide) (by decide)).2 (Or.inr (by decide))).2,
   ((initKeys_idempotent sampleDeps (sampleParams 1) "data" sampleFullStore
      (sampleDeps_framed "data")).1 .ValidatorBLSKey (by decide)).2.2⟩

end polybftsecrets
